/-
Verification of the batching / retry / resumable-progress pipeline of the
AI subtitle translator (js/app.js batching section and js/translator.js).

The JavaScript source is shallowly embedded: pure functions become Lean
functions over List Char / String / List Entry; the asynchronous
orchestrator and retry loop become explicit state-passing functions that
also return an event trace (checkpoints, onWaiting invocations, sleeps,
issued calls) and a virtual clock in ℚ milliseconds.  The external Gemini
call is abstracted as an oracle giving, per batch and attempt, either a
thrown error message or a raw response string; Math.random()*2000 jitter
becomes an arbitrary rational supplied per attempt.
-/
import Mathlib

/-- Subtitle entry, as produced by the external parser: 1-based `index`,
opaque timestamp strings, and the text payload (the only mutable field
across translation). -/
structure Entry where
  index : Nat
  startTime : String
  endTime : String
  text : String
deriving Repr, DecidableEq

/-- Batch of consecutive entries, as built by `createBatches` in app.js. -/
structure Batch where
  index : Nat
  entries : List Entry
  contextEntries : List Entry
  startIndex : Nat
  endIndex : Nat
deriving Repr, DecidableEq

/-- One pass of `response.split(/\n---\n|\n-{3,}\n/)` over the character
list.  `pend = some buf` means we have read a newline followed by zero or
more dashes (buf holds them, latest first) that may still grow into a
separator line; `acc` is the current piece, latest character first.  A
separator is a newline, three or more dashes, and a closing newline; the
closing newline is consumed and cannot open the next separator, matching
JavaScript split semantics. -/
def splitGo : List Char → List Char → Option (List Char) → List (List Char)
  | [], acc, none => [acc.reverse]
  | [], acc, some pend => [(pend ++ acc).reverse]
  | c :: rest, acc, none =>
      if c = '\n' then splitGo rest acc (some ['\n'])
      else splitGo rest (c :: acc) none
  | c :: rest, acc, some pend =>
      if c = '-' then splitGo rest acc (some (c :: pend))
      else if c = '\n' then
        if 4 ≤ pend.length then acc.reverse :: splitGo rest [] none
        else splitGo rest (pend ++ acc) (some ['\n'])
      else splitGo rest (c :: pend ++ acc) none

/-- `response.split(/\n---\n|\n-{3,}\n/)` from `parseAPIResponse`. -/
def splitSep (s : String) : List String :=
  (splitGo s.data [] none).map (fun cs => String.mk cs)

/-- `String.prototype.trim`: drop whitespace characters from both ends,
implemented over the character list so that it reduces in the kernel. -/
def jsTrim (s : String) : String :=
  String.mk (((s.data.dropWhile Char.isWhitespace).reverse.dropWhile
    Char.isWhitespace).reverse)

/-- The marker match `block.match(/^\[(\d+)\]\n?([\s\S]*)/)`: an opening
bracket, one or more digits, a closing bracket, an optional newline, then
the remainder; returns the remainder when the marker is present. -/
def parseMarker (cs : List Char) : Option (List Char) :=
  match cs with
  | '[' :: t =>
      let ds := t.takeWhile Char.isDigit
      if ds.isEmpty then none
      else
        match t.drop ds.length with
        | ']' :: r => some (if r.head? = some '\n' then r.tail else r)
        | _ => none
  | _ => none

/-- Translated text of one trimmed block: text after the `[n]` marker,
trimmed, when the marker matches; otherwise the whole trimmed block. -/
def extractText (block : String) : String :=
  match parseMarker block.data with
  | some rest => jsTrim (String.mk rest)
  | none => block

/-- The translated entry pushed for original `o` and trimmed block `b`:
timing and index are copied from the original, only `text` is replaced. -/
def translatedEntry (b : String) (o : Entry) : Entry :=
  { index := o.index, startTime := o.startTime, endTime := o.endTime,
    text := extractText b }

/-- The `for` loop of `parseAPIResponse`: walk blocks and originals
positionally while both remain; a block that trims to the empty string is
skipped (`if (!block) continue`) without pushing anything. -/
def parsedPairs (blocks : List String) (origs : List Entry) : List Entry :=
  (blocks.zip origs).filterMap (fun p =>
    let bl := jsTrim p.1
    if bl = "" then none else some (translatedEntry bl p.2))

/-- `parseAPIResponse(response, originalEntries)` from app.js: split on
separator lines, align blocks with originals positionally, then pad with
untouched originals (`while (translatedEntries.length < originalEntries.length)`). -/
def parseAPIResponse (response : String) (originalEntries : List Entry) : List Entry :=
  let acc := parsedPairs (splitSep response) originalEntries
  acc ++ originalEntries.drop acc.length

/-- `Math.max(10, Math.min(batchSize, 100))` from `createBatches`. -/
def clampBatchSize (batchSize : Int) : Nat :=
  (max 10 (min batchSize 100)).toNat

/-- The `while (currentIndex < totalEntries)` loop of `createBatches`.
`fuel` only bounds the recursion; the top level passes `entries.length`,
which suffices because every iteration advances `currentIndex` by at least
one.  `startIndex - 3` is natural subtraction, matching
`Math.max(0, startIndex - DEFAULT_CONFIG.contextOverlap)`. -/
def createBatchesGo (entries : List Entry) (B : Nat) :
    Nat → Nat → Nat → List Batch
  | 0, _, _ => []
  | fuel + 1, currentIndex, batchIndex =>
      if currentIndex < entries.length then
        let startIndex := currentIndex
        let endIndex := min (currentIndex + B) entries.length
        { index := batchIndex,
          entries := (entries.drop startIndex).take (endIndex - startIndex),
          contextEntries :=
            if 0 < startIndex then
              (entries.drop (startIndex - 3)).take (startIndex - (startIndex - 3))
            else [],
          startIndex := startIndex,
          endIndex := endIndex } ::
          createBatchesGo entries B fuel endIndex (batchIndex + 1)
      else []

/-- `createBatches(entries, batchSize)` from app.js. -/
def createBatches (entries : List Entry) (batchSize : Int) : List Batch :=
  if entries.length = 0 then []
  else createBatchesGo entries (clampBatchSize batchSize) entries.length 0 0

/-- `haystack.includes(needle)` on strings (JavaScript String.prototype.includes). -/
def includes (hay needle : String) : Bool :=
  decide (needle.data <:+: hay.data)

/-- Error message of the loop-top `throw new Error('Translation cancelled')`. -/
def cancelledMsg : String := "Translation cancelled"

/-- Error messages thrown by `callGeminiAPI`, with their interpolated payloads. -/
def invalidReqMsg (m : String) : String := "Invalid request: " ++ m

/-- 401/403 branch of `callGeminiAPI`. -/
def invalidKeyMsg : String := "Invalid API key. Please check your Gemini API key."

/-- 429 branch of `callGeminiAPI`. -/
def rateLimitMsg : String := "Rate limit exceeded. Please wait a moment and try again."

/-- 5xx branch of `callGeminiAPI`. -/
def serverErrMsg : String := "Gemini API server error. Please try again later."

/-- prompt-feedback block branch of `callGeminiAPI`. -/
def contentBlockedMsg (r : String) : String := "Content blocked: " ++ r

/-- empty-candidates-with-feedback branch of `callGeminiAPI`. -/
def noRespFeedbackMsg (f : String) : String :=
  "No response from Gemini API. Feedback: " ++ f

/-- empty-candidates branch of `callGeminiAPI`. -/
def noCandidatesMsg : String := "No response from Gemini API - empty candidates"

/-- safety-finish branch of `callGeminiAPI`. -/
def safetyBlockedMsg (s : String) : String :=
  "Response blocked by safety filter: " ++ s

/-- recitation-finish branch of `callGeminiAPI`. -/
def recitationMsg : String := "Response blocked due to recitation/copyright concerns"

/-- empty-parts branch of `callGeminiAPI`. -/
def emptyRespMsg (r : String) : String :=
  "Empty response from Gemini API. Finish reason: " ++ r

/-- The retryability test of `translateBatchWithRetry`: substring checks on
the thrown error's message. -/
def isRetryable (msg : String) : Bool :=
  includes msg "Rate limit" || includes msg "429" || includes msg "Too Many" ||
  includes msg "Empty response" || includes msg "empty candidates" ||
  includes msg "No response from Gemini"

/-- `Math.round` on a nonnegative rational: floor of x + 1/2 (JavaScript
rounds half away from zero, and all rounded values here are nonnegative). -/
def jsRound (q : ℚ) : ℤ := ⌊q + 1 / 2⌋

/-- Whether `signal.aborted` reads true at virtual time `t`, for a signal
that fires at time `a` (`none` = never fires). -/
def abortedAt : Option ℚ → ℚ → Bool
  | none, _ => false
  | some a, t => decide (a ≤ t)

/-- Outcome and trace of one `translateBatchWithRetry` call: the returned
entries or the thrown error message, the `onWaiting(waitSeconds, attempt,
maxRetries)` invocations in order, the backoff sleeps as (start, end)
times, the number of times the underlying API operation was invoked, and
the virtual time at which the call returned or threw. -/
structure RetryOut where
  result : Except String (List Entry)
  waits : List (ℤ × Nat × Nat)
  sleeps : List (ℚ × ℚ)
  attempts : Nat
  endTime : ℚ

/-- The `for (let attempt = 0; attempt <= maxRetries; attempt++)` loop of
`translateBatchWithRetry`.  `op k` is the outcome of attempt `k` of
`translateBatch`'s API call (error message or raw response, then parsed by
`parseAPIResponse`), `dur k` its duration, `jit k` the value of
`Math.random() * 2000` in the backoff of attempt `k`.  `rem` counts the
attempts still allowed after the current one, so `rem = mr - attempt` and
the code's guard `attempt < maxRetries` is `rem ≠ 0`.  The backoff sleep
is a plain `delay(totalDelay)`: it advances the clock without consulting
the abort signal, which is read only at the top of each iteration. -/
def retryGo (op : Nat → Except String String) (jit dur : Nat → ℚ)
    (bEntries : List Entry) (mr : Nat) (a? : Option ℚ) :
    Nat → Nat → ℚ → RetryOut
  | attempt, rem, t =>
    if abortedAt a? t then ⟨.error cancelledMsg, [], [], 0, t⟩
    else
      let t1 := t + dur attempt
      match op attempt with
      | .ok raw => ⟨.ok (parseAPIResponse raw bEntries), [], [], 1, t1⟩
      | .error msg =>
        if isRetryable msg then
          match rem with
          | 0 => ⟨.error msg, [], [], 1, t1⟩
          | rem' + 1 =>
            let d := 15000 * 2 ^ attempt + jit attempt
            let out := retryGo op jit dur bEntries mr a? (attempt + 1) rem' (t1 + d)
            ⟨out.result, (jsRound (d / 1000), attempt + 1, mr) :: out.waits,
             (t1, t1 + d) :: out.sleeps, out.attempts + 1, out.endTime⟩
        else ⟨.error msg, [], [], 1, t1⟩

/-- `translateBatchWithRetry(apiKey, batch, ..., maxRetries, signal,
onWaiting)` started at virtual time `t0`. -/
def translateBatchWithRetry (op : Nat → Except String String) (jit dur : Nat → ℚ)
    (bEntries : List Entry) (maxRetries : Nat) (a? : Option ℚ) (t0 : ℚ) : RetryOut :=
  retryGo op jit dur bEntries maxRetries a? 0 maxRetries t0

/-- Outcome and trace of one `translateAllBatches` run: the returned
entries or the thrown error message; the `onBatchComplete(completedBatches,
entries, failed)` checkpoint invocations in order; the batch indices for
which `translateBatchWithRetry` was started; the inter-batch sleeps as
(batch index slept after, start, end); the virtual end time; and whether
the failure came from the orchestrator's own loop-top `signal.aborted`
check (as opposed to an error thrown by the batch translation). -/
structure RunOut where
  result : Except String (List Entry)
  checkpoints : List (Nat × List Entry × Bool)
  calls : List Nat
  interSleeps : List (Nat × ℚ × ℚ)
  endTime : ℚ
  failedAtLoopCheck : Bool

/-- The `for (let i = startFromBatch; i < batches.length; i++)` loop of
`translateAllBatches`.  `is` is the list of remaining loop indices,
`acc` the running `allTranslatedEntries`, `t` the clock.  `oracle i k`
abstracts the Gemini call for batch `i`, attempt `k`.  The loop-top abort
check throws outside the try/catch, so it emits no checkpoint; an error
from `translateBatchWithRetry` is caught, checkpointed as
`(i, allTranslatedEntries, failed := true)`, and rethrown.  The
inter-batch `delay(BATCH_DELAY)` (4000 ms, skipped after the last batch)
advances the clock without consulting the abort signal. -/
def runGo (batches : List Batch) (oracle : Nat → Nat → Except String String)
    (jit dur : Nat → Nat → ℚ) (a? : Option ℚ) :
    List Nat → List Entry → ℚ → RunOut
  | [], acc, t => ⟨.ok acc, [], [], [], t, false⟩
  | i :: rest, acc, t =>
    if abortedAt a? t then ⟨.error cancelledMsg, [], [], [], t, true⟩
    else
      let b := batches.getD i ⟨0, [], [], 0, 0⟩
      let r := translateBatchWithRetry (oracle i) (jit i) (dur i) b.entries 5 a? t
      match r.result with
      | .ok tes =>
        let acc2 := acc ++ tes
        if i < batches.length - 1 then
          let out := runGo batches oracle jit dur a? rest acc2 (r.endTime + 4000)
          ⟨out.result, (i + 1, acc2, false) :: out.checkpoints, i :: out.calls,
           (i, r.endTime, r.endTime + 4000) :: out.interSleeps, out.endTime,
           out.failedAtLoopCheck⟩
        else
          let out := runGo batches oracle jit dur a? rest acc2 r.endTime
          ⟨out.result, (i + 1, acc2, false) :: out.checkpoints, i :: out.calls,
           out.interSleeps, out.endTime, out.failedAtLoopCheck⟩
      | .error e => ⟨.error e, [(i, acc, true)], [i], [], r.endTime, false⟩

/-- `translateAllBatches(apiKey, batches, ..., startFromBatch,
existingEntries)` from translator.js, starting the virtual clock at 0. -/
def translateAllBatches (batches : List Batch)
    (oracle : Nat → Nat → Except String String) (jit dur : Nat → Nat → ℚ)
    (a? : Option ℚ) (startFromBatch : Nat) (existingEntries : List Entry) : RunOut :=
  runGo batches oracle jit dur a?
    (List.range' startFromBatch (batches.length - startFromBatch)) existingEntries 0

/-- `validateApiKey(apiKey)` from translator.js.  `fetchOutcome` abstracts
the test request: `none` means `fetch` (or the body) threw, `some ok`
means a response with that `response.ok` value.  Returns the boolean
result and whether a network request was issued. -/
def validateApiKey (apiKey : String) (fetchOutcome : Option Bool) : Bool × Bool :=
  if apiKey = "" ∨ jsTrim apiKey = "" then (false, false)
  else
    match fetchOutcome with
    | none => (false, true)
    | some ok => (ok, true)

/-- Sum of the entry counts of the first `c` batches. -/
def entrySum (bs : List Batch) (c : Nat) : Nat :=
  ((bs.take c).map (fun b => b.entries.length)).sum

/-- Concrete entry used by witnesses and counterexamples. -/
def mkE (n : Nat) : Entry := ⟨n, "s", "e", "t"⟩

/-- Dummy batch used with `List.getD`. -/
def dummyBatch : Batch := ⟨0, [], [], 0, 0⟩

lemma parsedPairs_length_le (blocks : List String) (origs : List Entry) :
    (parsedPairs blocks origs).length ≤ origs.length := by
  calc (parsedPairs blocks origs).length ≤ (blocks.zip origs).length :=
        List.length_filterMap_le _ _
    _ ≤ origs.length := by rw [List.length_zip]; omega

lemma parsedPairs_length_le_blocks (blocks : List String) (origs : List Entry) :
    (parsedPairs blocks origs).length ≤ blocks.length := by
  calc (parsedPairs blocks origs).length ≤ (blocks.zip origs).length :=
        List.length_filterMap_le _ _
    _ ≤ blocks.length := by rw [List.length_zip]; omega

lemma parseAPIResponse_length (raw : String) (origs : List Entry) :
    (parseAPIResponse raw origs).length = origs.length := by
  have h := parsedPairs_length_le (splitSep raw) origs
  simp only [parseAPIResponse, List.length_append, List.length_drop]
  omega

lemma parsedPairs_pad_map {α : Type} (f : Entry → α)
    (hf : ∀ b o, f (translatedEntry b o) = f o) :
    ∀ (blocks : List String) (origs : List Entry),
      (∀ b ∈ blocks.take origs.length, jsTrim b ≠ "") →
      (parsedPairs blocks origs ++
        origs.drop (parsedPairs blocks origs).length).map f = origs.map f := by
  intro blocks
  induction blocks with
  | nil => intro origs _; simp [parsedPairs]
  | cons b bs ih =>
    intro origs h
    cases origs with
    | nil => simp [parsedPairs]
    | cons o os =>
      have hb : jsTrim b ≠ "" := by
        apply h
        simp [List.take_cons]
      have hrec := ih os (by
        intro b' hb'
        exact h b' (by simp [List.take_cons, hb']))
      have hpp : parsedPairs (b :: bs) (o :: os) =
          translatedEntry (jsTrim b) o :: parsedPairs bs os := by
        simp [parsedPairs, List.filterMap_cons, hb]
      rw [hpp]
      simp only [List.length_cons, List.drop_succ_cons, List.cons_append,
        List.map_cons, hf]
      rw [hrec]

/-- C1 (amended): for every raw response and original list,
`parseAPIResponse` returns exactly `originalEntries.length` entries; and
whenever none of the segments aligned with an original trims to the empty
string, the i-th returned entry carries the index, startTime and endTime
of `originalEntries[i]`.  (The unconditional alignment stated by the
original claim fails: an empty segment is skipped by `if (!block)
continue`, shifting later segments onto later originals' metadata — see
the counterexample.) -/
theorem parseAPIResponse_shape (raw : String) (origs : List Entry) :
    (parseAPIResponse raw origs).length = origs.length ∧
    ((∀ b ∈ (splitSep raw).take origs.length, jsTrim b ≠ "") →
      (parseAPIResponse raw origs).map Entry.index = origs.map Entry.index ∧
      (parseAPIResponse raw origs).map Entry.startTime = origs.map Entry.startTime ∧
      (parseAPIResponse raw origs).map Entry.endTime = origs.map Entry.endTime) := by
  refine ⟨parseAPIResponse_length raw origs, fun h => ⟨?_, ?_, ?_⟩⟩
  · exact parsedPairs_pad_map Entry.index (fun _ _ => rfl) (splitSep raw) origs h
  · exact parsedPairs_pad_map Entry.startTime (fun _ _ => rfl) (splitSep raw) origs h
  · exact parsedPairs_pad_map Entry.endTime (fun _ _ => rfl) (splitSep raw) origs h

/-- C1 witness: a well-formed two-segment response aligns with both
originals. -/
theorem parseAPIResponse_shape_witness :
    (parseAPIResponse "[1]\nA\n---\n[2]\nB" [mkE 1, mkE 2]).map Entry.index
      = [1, 2] := by
  have h := (parseAPIResponse_shape "[1]\nA\n---\n[2]\nB" [mkE 1, mkE 2]).2
    (by decide)
  rw [h.1]
  decide

/-- C1 counterexample: on `"\n---\nX"` against originals with indices 1
and 2, the first returned entry carries index 2, not 1 — the empty first
segment is skipped and `"X"` is attached to the second original's
metadata, so the i-th returned entry does not match `originalEntries[i]`. -/
theorem parseAPIResponse_misaligned :
    (parseAPIResponse "\n---\nX" [mkE 1, mkE 2]).map Entry.index = [2, 2] ∧
    ¬ ((parseAPIResponse "\n---\nX" [mkE 1, mkE 2]).map Entry.index
        = [mkE 1, mkE 2].map Entry.index) := by
  constructor
  · decide
  · decide

/-- C7: when the response splits into fewer segments than there are
originals, the returned list still has exactly `originalEntries.length`
entries and every padded position (from the end of the parse loop's
output onward) is the corresponding original entry copied verbatim; in
the degenerate case the empty response returns the two originals
unchanged. -/
theorem parseAPIResponse_padding :
    (∀ (raw : String) (origs : List Entry),
      (splitSep raw).length < origs.length →
      (parseAPIResponse raw origs).length = origs.length ∧
      (parseAPIResponse raw origs).drop (parsedPairs (splitSep raw) origs).length
        = origs.drop (parsedPairs (splitSep raw) origs).length ∧
      (parsedPairs (splitSep raw) origs).length < origs.length) ∧
    ∀ e1 e2 : Entry, parseAPIResponse "" [e1, e2] = [e1, e2] := by
  constructor
  · intro raw origs hlt
    refine ⟨parseAPIResponse_length raw origs, ?_, ?_⟩
    · simp only [parseAPIResponse]
      exact List.drop_left _ _
    · exact lt_of_le_of_lt (parsedPairs_length_le_blocks _ _) hlt
  · intro e1 e2
    rfl

/-- C7 witness: a one-segment response against two originals pads the
second position with the second original. -/
theorem parseAPIResponse_padding_witness :
    (splitSep "hello").length < 2 ∧
    (parseAPIResponse "hello" [mkE 1, mkE 2]).drop
        (parsedPairs (splitSep "hello") [mkE 1, mkE 2]).length
      = [mkE 1, mkE 2].drop
        (parsedPairs (splitSep "hello") [mkE 1, mkE 2]).length :=
  ⟨by decide, (parseAPIResponse_padding.1 "hello" [mkE 1, mkE 2] (by decide)).2.1⟩

lemma clampBatchSize_bounds (batchSize : Int) :
    10 ≤ clampBatchSize batchSize ∧ clampBatchSize batchSize ≤ 100 := by
  simp only [clampBatchSize]
  omega

lemma createBatchesGo_length (entries : List Entry) (B : Nat) (hB : 0 < B) :
    ∀ (fuel currentIndex batchIndex : Nat),
      entries.length - currentIndex ≤ fuel →
      (createBatchesGo entries B fuel currentIndex batchIndex).length
        = (entries.length - currentIndex + B - 1) / B := by
  intro fuel
  induction fuel with
  | zero =>
    intro cur bi h
    have hc : entries.length - cur = 0 := by omega
    simp only [createBatchesGo, List.length_nil, hc]
    rw [Nat.div_eq_of_lt (by omega)]
  | succ fuel ih =>
    intro cur bi h
    by_cases hcur : cur < entries.length
    · simp only [createBatchesGo, if_pos hcur, List.length_cons]
      by_cases hfit : cur + B ≤ entries.length
      · have hend : min (cur + B) entries.length = cur + B := by omega
        rw [hend, ih (cur + B) (bi + 1) (by omega)]
        have h1 : entries.length - cur + B - 1
            = (entries.length - (cur + B) + B - 1) + B := by omega
        rw [h1, Nat.add_div_right _ hB]
      · have hend : min (cur + B) entries.length = entries.length := by omega
        rw [hend, ih entries.length (bi + 1) (by omega)]
        have h0 : entries.length - entries.length = 0 := by omega
        rw [h0, Nat.div_eq_of_lt (by omega)]
        have := Nat.div_eq_of_lt_le
          (by omega : 1 * B ≤ entries.length - cur + B - 1)
          (by omega : entries.length - cur + B - 1 < (1 + 1) * B)
        omega
    · simp only [createBatchesGo, if_neg hcur, List.length_nil]
      rw [Nat.div_eq_of_lt (by omega)]


lemma createBatchesGo_getD (entries : List Entry) (B : Nat) (hB : 0 < B) :
    ∀ (fuel currentIndex batchIndex j : Nat),
      entries.length - currentIndex ≤ fuel →
      j < (createBatchesGo entries B fuel currentIndex batchIndex).length →
      (createBatchesGo entries B fuel currentIndex batchIndex).getD j dummyBatch
        = { index := batchIndex + j,
            entries := (entries.drop (currentIndex + j * B)).take
              (min (currentIndex + (j + 1) * B) entries.length
                - (currentIndex + j * B)),
            contextEntries :=
              if 0 < currentIndex + j * B then
                (entries.drop (currentIndex + j * B - 3)).take
                  (currentIndex + j * B - (currentIndex + j * B - 3))
              else [],
            startIndex := currentIndex + j * B,
            endIndex := min (currentIndex + (j + 1) * B) entries.length } := by
  intro fuel
  induction fuel with
  | zero =>
    intro cur bi j h hj
    simp only [createBatchesGo, List.length_nil] at hj
    omega
  | succ fuel ih =>
    intro cur bi j h hj
    by_cases hcur : cur < entries.length
    · simp only [createBatchesGo, if_pos hcur] at hj ⊢
      cases j with
      | zero =>
        have z1 : cur + 0 * B = cur := by ring
        have z2 : cur + (0 + 1) * B = cur + B := by ring
        rw [List.getD_cons_zero, z1, z2]
        rfl
      | succ j =>
        rw [List.getD_cons_succ]
        have hj' : j < (createBatchesGo entries B fuel
            (min (cur + B) entries.length) (bi + 1)).length := by
          rw [List.length_cons] at hj
          omega
        by_cases hfit : cur + B ≤ entries.length
        · have hend : min (cur + B) entries.length = cur + B := by omega
          rw [hend] at hj' ⊢
          rw [ih (cur + B) (bi + 1) j (by omega) hj']
          have e1 : cur + B + j * B = cur + (j + 1) * B := by ring
          have e2 : cur + B + (j + 1) * B = cur + (j + 1 + 1) * B := by ring
          have e3 : bi + 1 + j = bi + (j + 1) := by omega
          rw [e1, e2, e3]
        · have hend : min (cur + B) entries.length = entries.length := by omega
          rw [hend] at hj'
          rw [createBatchesGo_length entries B hB fuel entries.length (bi + 1)
            (by omega), Nat.sub_self, Nat.div_eq_of_lt (by omega)] at hj'
          omega
    · simp only [createBatchesGo, if_neg hcur, List.length_nil] at hj
      omega

lemma createBatchesGo_flatten (entries : List Entry) (B : Nat) (hB : 0 < B) :
    ∀ (fuel currentIndex batchIndex : Nat),
      entries.length - currentIndex ≤ fuel →
      ((createBatchesGo entries B fuel currentIndex batchIndex).map
        Batch.entries).flatten = entries.drop currentIndex := by
  intro fuel
  induction fuel with
  | zero =>
    intro cur bi h
    simp only [createBatchesGo, List.map_nil, List.flatten_nil]
    rw [List.drop_eq_nil_of_le (by omega)]
  | succ fuel ih =>
    intro cur bi h
    by_cases hcur : cur < entries.length
    · simp only [createBatchesGo, if_pos hcur, List.map_cons, List.flatten_cons]
      have h2 : entries.drop (min (cur + B) entries.length)
          = (entries.drop cur).drop (min (cur + B) entries.length - cur) := by
        rw [List.drop_drop]
        congr 1
        omega
      rw [ih (min (cur + B) entries.length) (bi + 1) (by omega), h2,
        List.take_append_drop]
    · simp only [createBatchesGo, if_neg hcur, List.map_nil, List.flatten_nil]
      rw [List.drop_eq_nil_of_le (by omega)]

/-- C4: `createBatches` clamps the requested batch size to [10,100]
(yielding B), produces ceil(N/B) batches, batch j covering positions
[j*B, min((j+1)*B, N)) of the input (with the code's context window),
whose entry slices concatenate back to the input exactly; it returns the
empty sequence on empty input and is deterministic. -/
theorem createBatches_spec (entries : List Entry) (batchSize : Int) :
    10 ≤ clampBatchSize batchSize ∧ clampBatchSize batchSize ≤ 100 ∧
    (createBatches entries batchSize).length
      = (entries.length + clampBatchSize batchSize - 1) / clampBatchSize batchSize ∧
    (entries = [] → createBatches entries batchSize = []) ∧
    (∀ j, j < (createBatches entries batchSize).length →
      (createBatches entries batchSize).getD j dummyBatch
        = { index := j,
            entries := (entries.drop (j * clampBatchSize batchSize)).take
              (min ((j + 1) * clampBatchSize batchSize) entries.length
                - j * clampBatchSize batchSize),
            contextEntries :=
              if 0 < j * clampBatchSize batchSize then
                (entries.drop (j * clampBatchSize batchSize - 3)).take
                  (j * clampBatchSize batchSize
                    - (j * clampBatchSize batchSize - 3))
              else [],
            startIndex := j * clampBatchSize batchSize,
            endIndex := min ((j + 1) * clampBatchSize batchSize) entries.length }) ∧
    ((createBatches entries batchSize).map Batch.entries).flatten = entries ∧
    (∀ entries2 batchSize2, entries2 = entries → batchSize2 = batchSize →
      createBatches entries2 batchSize2 = createBatches entries batchSize) := by
  obtain ⟨hle, hge⟩ := clampBatchSize_bounds batchSize
  have hB : 0 < clampBatchSize batchSize := by omega
  by_cases hemp : entries.length = 0
  · have he : entries = [] := List.length_eq_zero.mp hemp
    subst he
    have h0 : createBatches [] batchSize = [] := rfl
    refine ⟨hle, hge, ?_, fun _ => h0, fun j hj => ?_, ?_, fun e2 b2 h1 h2 => ?_⟩
    · rw [h0, List.length_nil, List.length_nil, Nat.div_eq_of_lt (by omega)]
    · rw [h0] at hj
      simp at hj
    · rw [h0]
      rfl
    · rw [h1, h2]
  · simp only [createBatches, if_neg hemp]
    refine ⟨hle, hge, ?_, fun h => ?_, fun j hj => ?_, ?_, fun e2 b2 h1 h2 => ?_⟩
    · rw [createBatchesGo_length entries _ hB entries.length 0 0 (by omega),
        Nat.sub_zero]
    · exact absurd (by rw [h]; rfl : entries.length = 0) hemp
    · rw [createBatchesGo_getD entries _ hB entries.length 0 0 j (by omega) hj]
      simp only [Nat.zero_add]
    · rw [createBatchesGo_flatten entries _ hB entries.length 0 0 (by omega)]
      exact List.drop_zero entries
    · rw [h1, h2]
      simp only [createBatches, if_neg hemp]

/-- C4 witness: 25 entries with batch size 10 give a second batch starting
at position 10, and the empty input gives no batches. -/
theorem createBatches_spec_witness :
    ((createBatches ((List.range 25).map mkE) 10).getD 1 dummyBatch).startIndex
        = 1 * clampBatchSize 10 ∧
    createBatches [] 10 = [] := by
  constructor
  · rw [(createBatches_spec ((List.range 25).map mkE) 10).2.2.2.2.1 1 (by decide)]
  · exact (createBatches_spec [] 10).2.2.2.1 rfl

lemma abortedAt_none (t : ℚ) : abortedAt none t = false := rfl

lemma retryGo_step_aborted (op : Nat → Except String String) (jit dur : Nat → ℚ)
    (be : List Entry) (mr : Nat) (a? : Option ℚ) (attempt rem : Nat) (t : ℚ)
    (h : abortedAt a? t = true) :
    retryGo op jit dur be mr a? attempt rem t
      = ⟨.error cancelledMsg, [], [], 0, t⟩ := by
  rw [retryGo]
  simp [h]

lemma retryGo_step_ok (op : Nat → Except String String) (jit dur : Nat → ℚ)
    (be : List Entry) (mr : Nat) (a? : Option ℚ) (attempt rem : Nat) (t : ℚ)
    (raw : String) (h : abortedAt a? t = false) (hop : op attempt = .ok raw) :
    retryGo op jit dur be mr a? attempt rem t
      = ⟨.ok (parseAPIResponse raw be), [], [], 1, t + dur attempt⟩ := by
  rw [retryGo]
  simp [h, hop]

lemma retryGo_step_terminal (op : Nat → Except String String) (jit dur : Nat → ℚ)
    (be : List Entry) (mr : Nat) (a? : Option ℚ) (attempt rem : Nat) (t : ℚ)
    (msg : String) (h : abortedAt a? t = false) (hop : op attempt = .error msg)
    (hr : isRetryable msg = false) :
    retryGo op jit dur be mr a? attempt rem t
      = ⟨.error msg, [], [], 1, t + dur attempt⟩ := by
  rw [retryGo]
  simp [h, hop, hr]

lemma retryGo_step_exhausted (op : Nat → Except String String) (jit dur : Nat → ℚ)
    (be : List Entry) (mr : Nat) (a? : Option ℚ) (attempt : Nat) (t : ℚ)
    (msg : String) (h : abortedAt a? t = false) (hop : op attempt = .error msg)
    (hr : isRetryable msg = true) :
    retryGo op jit dur be mr a? attempt 0 t
      = ⟨.error msg, [], [], 1, t + dur attempt⟩ := by
  rw [retryGo]
  simp [h, hop, hr]

lemma retryGo_step_retry (op : Nat → Except String String) (jit dur : Nat → ℚ)
    (be : List Entry) (mr : Nat) (a? : Option ℚ) (attempt rem : Nat) (t : ℚ)
    (msg : String) (h : abortedAt a? t = false) (hop : op attempt = .error msg)
    (hr : isRetryable msg = true) :
    retryGo op jit dur be mr a? attempt (rem + 1) t
      = ⟨(retryGo op jit dur be mr a? (attempt + 1) rem
            (t + dur attempt + (15000 * 2 ^ attempt + jit attempt))).result,
         (jsRound ((15000 * 2 ^ attempt + jit attempt) / 1000), attempt + 1, mr) ::
           (retryGo op jit dur be mr a? (attempt + 1) rem
             (t + dur attempt + (15000 * 2 ^ attempt + jit attempt))).waits,
         (t + dur attempt, t + dur attempt + (15000 * 2 ^ attempt + jit attempt)) ::
           (retryGo op jit dur be mr a? (attempt + 1) rem
             (t + dur attempt + (15000 * 2 ^ attempt + jit attempt))).sleeps,
         (retryGo op jit dur be mr a? (attempt + 1) rem
           (t + dur attempt + (15000 * 2 ^ attempt + jit attempt))).attempts + 1,
         (retryGo op jit dur be mr a? (attempt + 1) rem
           (t + dur attempt + (15000 * 2 ^ attempt + jit attempt))).endTime⟩ := by
  rw [retryGo]
  simp [h, hop, hr]

lemma retryGo_attempts_pos (op : Nat → Except String String) (jit dur : Nat → ℚ)
    (be : List Entry) (mr : Nat) (a? : Option ℚ) (attempt rem : Nat) (t : ℚ)
    (h : abortedAt a? t = false) :
    1 ≤ (retryGo op jit dur be mr a? attempt rem t).attempts := by
  rw [retryGo]
  simp only [h, Bool.false_eq_true, if_false]
  cases hop : op attempt with
  | ok raw => simp
  | error msg =>
    by_cases hr : isRetryable msg
    · cases rem with
      | zero => simp [hr]
      | succ rem => simp [hr]
    · simp [hr]

lemma retryGo_attempts_le (op : Nat → Except String String) (jit dur : Nat → ℚ)
    (be : List Entry) (mr : Nat) (a? : Option ℚ) :
    ∀ (rem attempt : Nat) (t : ℚ),
      (retryGo op jit dur be mr a? attempt rem t).attempts ≤ rem + 1 := by
  intro rem
  induction rem with
  | zero =>
    intro attempt t
    cases h : abortedAt a? t with
    | true =>
      rw [retryGo_step_aborted op jit dur be mr a? attempt 0 t h]
      simp
    | false =>
      cases hop : op attempt with
      | ok raw =>
        rw [retryGo_step_ok op jit dur be mr a? attempt 0 t raw h hop]
      | error msg =>
        cases hr : isRetryable msg with
        | true =>
          rw [retryGo_step_exhausted op jit dur be mr a? attempt t msg h hop hr]
        | false =>
          rw [retryGo_step_terminal op jit dur be mr a? attempt 0 t msg h hop hr]
  | succ rem ih =>
    intro attempt t
    cases h : abortedAt a? t with
    | true =>
      rw [retryGo_step_aborted op jit dur be mr a? attempt (rem + 1) t h]
      simp
    | false =>
      cases hop : op attempt with
      | ok raw =>
        rw [retryGo_step_ok op jit dur be mr a? attempt (rem + 1) t raw h hop]
        simp
      | error msg =>
        cases hr : isRetryable msg with
        | true =>
          rw [retryGo_step_retry op jit dur be mr a? attempt rem t msg h hop hr]
          have hrec := ih (attempt + 1)
            (t + dur attempt + (15000 * 2 ^ attempt + jit attempt))
          simp only []
          omega
        | false =>
          rw [retryGo_step_terminal op jit dur be mr a? attempt (rem + 1) t msg h hop hr]
          simp

lemma retryGo_all_retryable (op : Nat → Except String String) (jit dur : Nat → ℚ)
    (be : List Entry) (mr : Nat) (msgs : Nat → String) :
    ∀ (rem attempt : Nat) (t : ℚ),
      (∀ j, j ≤ rem → op (attempt + j) = .error (msgs (attempt + j)) ∧
        isRetryable (msgs (attempt + j)) = true) →
      (retryGo op jit dur be mr none attempt rem t).result
          = .error (msgs (attempt + rem)) ∧
      (retryGo op jit dur be mr none attempt rem t).attempts = rem + 1 ∧
      (retryGo op jit dur be mr none attempt rem t).waits.length = rem := by
  intro rem
  induction rem with
  | zero =>
    intro attempt t h
    obtain ⟨hop, hr⟩ := h 0 (le_refl 0)
    rw [Nat.add_zero] at hop hr
    rw [retryGo_step_exhausted op jit dur be mr none attempt t (msgs attempt)
      (abortedAt_none t) hop hr]
    exact ⟨by rw [Nat.add_zero], rfl, rfl⟩
  | succ rem ih =>
    intro attempt t h
    obtain ⟨hop, hr⟩ := h 0 (Nat.zero_le _)
    rw [Nat.add_zero] at hop hr
    rw [retryGo_step_retry op jit dur be mr none attempt rem t (msgs attempt)
      (abortedAt_none t) hop hr]
    have hrec := ih (attempt + 1)
      (t + dur attempt + (15000 * 2 ^ attempt + jit attempt))
      (fun j hj => by
        have := h (j + 1) (by omega)
        rwa [show attempt + (j + 1) = attempt + 1 + j by omega] at this)
    refine ⟨?_, ?_, ?_⟩
    · rw [hrec.1]
      rw [show attempt + 1 + rem = attempt + (rem + 1) by omega]
    · simp only [hrec.2.1]
    · simp only [List.length_cons, hrec.2.2]

/-- C9: the retry controller invokes the underlying operation at most
maxRetries+1 times; when every attempt fails with a retryable error and no
cancellation occurs, it is invoked exactly maxRetries+1 times, onWaiting
fires exactly maxRetries times, and the call fails with the final
attempt's error. -/
theorem translateBatchWithRetry_attempt_count (op : Nat → Except String String)
    (jit dur : Nat → ℚ) (be : List Entry) (mr : Nat) (t0 : ℚ) :
    (translateBatchWithRetry op jit dur be mr none t0).attempts ≤ mr + 1 ∧
    (∀ msgs : Nat → String,
      (∀ k, k ≤ mr → op k = .error (msgs k) ∧ isRetryable (msgs k) = true) →
      (translateBatchWithRetry op jit dur be mr none t0).result = .error (msgs mr) ∧
      (translateBatchWithRetry op jit dur be mr none t0).attempts = mr + 1 ∧
      (translateBatchWithRetry op jit dur be mr none t0).waits.length = mr) := by
  constructor
  · exact retryGo_attempts_le op jit dur be mr none mr 0 t0
  · intro msgs h
    have := retryGo_all_retryable op jit dur be mr msgs mr 0 t0
      (fun j hj => by simpa using h j hj)
    simpa [translateBatchWithRetry] using this

/-- C9 witness: with maxRetries = 1 and an operation always failing with
the rate-limit message, the operation runs exactly twice and the call
fails with that message after one wait. -/
theorem translateBatchWithRetry_attempt_count_witness :
    (translateBatchWithRetry (fun _ => .error rateLimitMsg) (fun _ => 0)
        (fun _ => 0) [] 1 none 0).attempts = 2 ∧
    (translateBatchWithRetry (fun _ => .error rateLimitMsg) (fun _ => 0)
        (fun _ => 0) [] 1 none 0).result = .error rateLimitMsg := by
  have h := (translateBatchWithRetry_attempt_count (fun _ => .error rateLimitMsg)
    (fun _ => 0) (fun _ => 0) [] 1 0).2 (fun _ => rateLimitMsg)
    (fun k _ => ⟨rfl, by show isRetryable rateLimitMsg = true; decide⟩)
  exact ⟨h.2.1, h.1⟩

/-- C3: a first-attempt failure is retried only when its message
classifies as retryable, and the code's classifier accepts exactly the
rate-limit and empty/missing-response messages produced by
`callGeminiAPI`, while the authentication, malformed-request, safety,
recitation, server-error and cancellation messages classify as terminal
and propagate immediately with a single attempt and no onWaiting call. -/
theorem translateBatchWithRetry_classification :
    (∀ (op : Nat → Except String String) (jit dur : Nat → ℚ) (be : List Entry)
        (mr : Nat) (t0 : ℚ) (msg : String),
      op 0 = .error msg → isRetryable msg = false →
      (translateBatchWithRetry op jit dur be mr none t0).result = .error msg ∧
      (translateBatchWithRetry op jit dur be mr none t0).attempts = 1 ∧
      (translateBatchWithRetry op jit dur be mr none t0).waits = []) ∧
    (∀ (op : Nat → Except String String) (jit dur : Nat → ℚ) (be : List Entry)
        (mr : Nat) (t0 : ℚ) (msg : String),
      op 0 = .error msg → isRetryable msg = true → 1 ≤ mr →
      2 ≤ (translateBatchWithRetry op jit dur be mr none t0).attempts) ∧
    isRetryable rateLimitMsg = true ∧
    isRetryable noCandidatesMsg = true ∧
    isRetryable (noRespFeedbackMsg "BLOCK_REASON_OTHER") = true ∧
    isRetryable (emptyRespMsg "STOP") = true ∧
    isRetryable invalidKeyMsg = false ∧
    isRetryable (invalidReqMsg "HTTP 400") = false ∧
    isRetryable serverErrMsg = false ∧
    isRetryable (contentBlockedMsg "SAFETY") = false ∧
    isRetryable (safetyBlockedMsg "unknown reason") = false ∧
    isRetryable recitationMsg = false ∧
    isRetryable cancelledMsg = false := by
  refine ⟨?_, ?_, by decide, by decide, by decide, by decide, by decide,
    by decide, by decide, by decide, by decide, by decide, by decide⟩
  · intro op jit dur be mr t0 msg hop hr
    rw [translateBatchWithRetry,
      retryGo_step_terminal op jit dur be mr none 0 mr t0 msg
        (abortedAt_none t0) hop hr]
    exact ⟨rfl, rfl, rfl⟩
  · intro op jit dur be mr t0 msg hop hr hmr
    obtain ⟨m, rfl⟩ : ∃ m, mr = m + 1 := ⟨mr - 1, by omega⟩
    rw [translateBatchWithRetry,
      retryGo_step_retry op jit dur be (m + 1) none 0 m t0 msg
        (abortedAt_none t0) hop hr]
    have := retryGo_attempts_pos op jit dur be (m + 1) none 1 m
      (t0 + dur 0 + (15000 * 2 ^ 0 + jit 0)) (abortedAt_none _)
    show 2 ≤ (retryGo op jit dur be (m + 1) none 1 m
      (t0 + dur 0 + (15000 * 2 ^ 0 + jit 0))).attempts + 1
    omega

/-- C3 witness: an operation whose first attempt fails with the
invalid-API-key message propagates after exactly one attempt with no
onWaiting invocation. -/
theorem translateBatchWithRetry_classification_witness :
    (translateBatchWithRetry (fun _ => .error invalidKeyMsg) (fun _ => 0)
        (fun _ => 0) [] 5 none 0).result = .error invalidKeyMsg ∧
    (translateBatchWithRetry (fun _ => .error invalidKeyMsg) (fun _ => 0)
        (fun _ => 0) [] 5 none 0).attempts = 1 ∧
    (translateBatchWithRetry (fun _ => .error invalidKeyMsg) (fun _ => 0)
        (fun _ => 0) [] 5 none 0).waits = [] :=
  translateBatchWithRetry_classification.1 (fun _ => .error invalidKeyMsg)
    (fun _ => 0) (fun _ => 0) [] 5 0 invalidKeyMsg rfl (by decide)

lemma retryGo_waits_sleeps_form (op : Nat → Except String String)
    (jit dur : Nat → ℚ) (be : List Entry) (mr : Nat) (a? : Option ℚ) :
    ∀ (rem attempt : Nat) (t : ℚ),
      (∀ w ∈ (retryGo op jit dur be mr a? attempt rem t).waits,
        ∃ a, w = (jsRound ((15000 * 2 ^ a + jit a) / 1000), a + 1, mr)) ∧
      (∀ s ∈ (retryGo op jit dur be mr a? attempt rem t).sleeps,
        ∃ a, s.2 = s.1 + (15000 * 2 ^ a + jit a)) := by
  intro rem
  induction rem with
  | zero =>
    intro attempt t
    cases h : abortedAt a? t with
    | true =>
      rw [retryGo_step_aborted op jit dur be mr a? attempt 0 t h]
      exact ⟨by simp, by simp⟩
    | false =>
      cases hop : op attempt with
      | ok raw =>
        rw [retryGo_step_ok op jit dur be mr a? attempt 0 t raw h hop]
        exact ⟨by simp, by simp⟩
      | error msg =>
        cases hr : isRetryable msg with
        | true =>
          rw [retryGo_step_exhausted op jit dur be mr a? attempt t msg h hop hr]
          exact ⟨by simp, by simp⟩
        | false =>
          rw [retryGo_step_terminal op jit dur be mr a? attempt 0 t msg h hop hr]
          exact ⟨by simp, by simp⟩
  | succ rem ih =>
    intro attempt t
    cases h : abortedAt a? t with
    | true =>
      rw [retryGo_step_aborted op jit dur be mr a? attempt (rem + 1) t h]
      exact ⟨by simp, by simp⟩
    | false =>
      cases hop : op attempt with
      | ok raw =>
        rw [retryGo_step_ok op jit dur be mr a? attempt (rem + 1) t raw h hop]
        exact ⟨by simp, by simp⟩
      | error msg =>
        cases hr : isRetryable msg with
        | true =>
          rw [retryGo_step_retry op jit dur be mr a? attempt rem t msg h hop hr]
          have hrec := ih (attempt + 1)
            (t + dur attempt + (15000 * 2 ^ attempt + jit attempt))
          constructor
          · intro w hw
            simp only [List.mem_cons] at hw
            rcases hw with hw | hw
            · exact ⟨attempt, hw⟩
            · exact hrec.1 w hw
          · intro s hs
            simp only [List.mem_cons] at hs
            rcases hs with hs | hs
            · exact ⟨attempt, by rw [hs]⟩
            · exact hrec.2 s hs
        | false =>
          rw [retryGo_step_terminal op jit dur be mr a? attempt (rem + 1) t msg h hop hr]
          exact ⟨by simp, by simp⟩

lemma jsRound_backoff_lt (j0 j1 : ℚ) (_h00 : 0 ≤ j0) (h01 : j0 < 2000)
    (h10 : 0 ≤ j1) :
    jsRound ((15000 + j0) / 1000) < jsRound ((30000 + j1) / 1000) := by
  have hl : jsRound ((15000 + j0) / 1000) < 18 := by
    rw [jsRound]
    exact Int.floor_lt.mpr (by push_cast; linarith)
  have hr : (30 : ℤ) ≤ jsRound ((30000 + j1) / 1000) := by
    rw [jsRound]
    exact Int.le_floor.mpr (by push_cast; linarith)
  omega

/-- C5: every onWaiting invocation reports round((15000*2^attempt +
jitter)/1000) seconds with the 1-based attempt number and maxRetries, and
every backoff sleep lasts exactly 15000*2^attempt + jitter milliseconds;
an operation failing twice with the rate-limit message and succeeding on
the third attempt returns the parsed success value, invokes onWaiting
exactly twice, and the two reported delays are strictly increasing. -/
theorem translateBatchWithRetry_backoff :
    (∀ (op : Nat → Except String String) (jit dur : Nat → ℚ) (be : List Entry)
        (mr : Nat) (a? : Option ℚ) (attempt rem : Nat) (t : ℚ),
      (∀ w ∈ (retryGo op jit dur be mr a? attempt rem t).waits,
        ∃ a, w = (jsRound ((15000 * 2 ^ a + jit a) / 1000), a + 1, mr)) ∧
      (∀ s ∈ (retryGo op jit dur be mr a? attempt rem t).sleeps,
        ∃ a, s.2 = s.1 + (15000 * 2 ^ a + jit a))) ∧
    (∀ (op : Nat → Except String String) (jit dur : Nat → ℚ) (be : List Entry)
        (mr : Nat) (t0 : ℚ) (raw : String),
      op 0 = .error rateLimitMsg → op 1 = .error rateLimitMsg →
      op 2 = .ok raw → 2 ≤ mr →
      (∀ k, 0 ≤ jit k) → (∀ k, jit k < 2000) →
      (translateBatchWithRetry op jit dur be mr none t0).result
          = .ok (parseAPIResponse raw be) ∧
      (translateBatchWithRetry op jit dur be mr none t0).waits
          = [(jsRound ((15000 + jit 0) / 1000), 1, mr),
             (jsRound ((30000 + jit 1) / 1000), 2, mr)] ∧
      jsRound ((15000 + jit 0) / 1000) < jsRound ((30000 + jit 1) / 1000) ∧
      (translateBatchWithRetry op jit dur be mr none t0).sleeps
          = [(t0 + dur 0, t0 + dur 0 + (15000 + jit 0)),
             (t0 + dur 0 + (15000 + jit 0) + dur 1,
              t0 + dur 0 + (15000 + jit 0) + dur 1 + (30000 + jit 1))] ∧
      (translateBatchWithRetry op jit dur be mr none t0).attempts = 3) := by
  constructor
  · intro op jit dur be mr a? attempt rem t
    exact retryGo_waits_sleeps_form op jit dur be mr a? rem attempt t
  · intro op jit dur be mr t0 raw hop0 hop1 hop2 hmr hj0 hj1
    obtain ⟨m, rfl⟩ : ∃ m, mr = m + 1 + 1 := ⟨mr - 2, by omega⟩
    have hret : isRetryable rateLimitMsg = true := by decide
    have p0 : (15000 : ℚ) * 2 ^ (0 : Nat) + jit 0 = 15000 + jit 0 := by norm_num
    have p1 : (15000 : ℚ) * 2 ^ (1 : Nat) + jit 1 = 30000 + jit 1 := by norm_num
    rw [translateBatchWithRetry,
      retryGo_step_retry op jit dur be (m + 1 + 1) none 0 (m + 1) t0
        rateLimitMsg (abortedAt_none t0) hop0 hret,
      retryGo_step_retry op jit dur be (m + 1 + 1) none 1 m
        (t0 + dur 0 + (15000 * 2 ^ 0 + jit 0)) rateLimitMsg
        (abortedAt_none _) hop1 hret,
      retryGo_step_ok op jit dur be (m + 1 + 1) none 2 m
        (t0 + dur 0 + (15000 * 2 ^ 0 + jit 0) + dur 1 + (15000 * 2 ^ 1 + jit 1))
        raw (abortedAt_none _) hop2]
    rw [p0, p1]
    exact ⟨rfl, rfl, jsRound_backoff_lt (jit 0) (jit 1) (hj0 0) (hj1 0) (hj0 1),
      rfl, rfl⟩

/-- C5 witness: with zero jitter and instantaneous calls, the concrete
15s/30s schedule appears and the reported seconds increase strictly. -/
theorem translateBatchWithRetry_backoff_witness :
    (translateBatchWithRetry
        (fun k => if k ≤ 1 then .error rateLimitMsg else .ok "done")
        (fun _ => 0) (fun _ => 0) [mkE 1] 2 none 0).waits
      = [(jsRound ((15000 + 0) / 1000), 1, 2),
         (jsRound ((30000 + 0) / 1000), 2, 2)] ∧
    jsRound (((15000 : ℚ) + 0) / 1000) < jsRound (((30000 : ℚ) + 0) / 1000) := by
  have h := translateBatchWithRetry_backoff.2
    (fun k => if k ≤ 1 then .error rateLimitMsg else .ok "done")
    (fun _ => 0) (fun _ => 0) [mkE 1] 2 0 "done" rfl rfl rfl (le_refl 2)
    (fun _ => le_refl 0) (fun _ => by norm_num)
  exact ⟨h.2.1, h.2.2.1⟩

lemma runGo_nil (batches : List Batch) (oracle : Nat → Nat → Except String String)
    (jit dur : Nat → Nat → ℚ) (a? : Option ℚ) (acc : List Entry) (t : ℚ) :
    runGo batches oracle jit dur a? [] acc t = ⟨.ok acc, [], [], [], t, false⟩ := by
  rw [runGo]

lemma runGo_cons_aborted (batches : List Batch)
    (oracle : Nat → Nat → Except String String) (jit dur : Nat → Nat → ℚ)
    (a? : Option ℚ) (i : Nat) (rest : List Nat) (acc : List Entry) (t : ℚ)
    (h : abortedAt a? t = true) :
    runGo batches oracle jit dur a? (i :: rest) acc t
      = ⟨.error cancelledMsg, [], [], [], t, true⟩ := by
  rw [runGo]
  simp [h]

lemma runGo_cons_error (batches : List Batch)
    (oracle : Nat → Nat → Except String String) (jit dur : Nat → Nat → ℚ)
    (a? : Option ℚ) (i : Nat) (rest : List Nat) (acc : List Entry) (t : ℚ)
    (r : RetryOut) (e : String) (h : abortedAt a? t = false)
    (hr : translateBatchWithRetry (oracle i) (jit i) (dur i)
      (batches.getD i ⟨0, [], [], 0, 0⟩).entries 5 a? t = r)
    (hres : r.result = .error e) :
    runGo batches oracle jit dur a? (i :: rest) acc t
      = ⟨.error e, [(i, acc, true)], [i], [], r.endTime, false⟩ := by
  rw [runGo]
  simp only [h, Bool.false_eq_true, if_false, hr]
  rw [hres]

lemma runGo_cons_ok_sleep (batches : List Batch)
    (oracle : Nat → Nat → Except String String) (jit dur : Nat → Nat → ℚ)
    (a? : Option ℚ) (i : Nat) (rest : List Nat) (acc : List Entry) (t : ℚ)
    (r : RetryOut) (tes : List Entry) (h : abortedAt a? t = false)
    (hr : translateBatchWithRetry (oracle i) (jit i) (dur i)
      (batches.getD i ⟨0, [], [], 0, 0⟩).entries 5 a? t = r)
    (hres : r.result = .ok tes) (hi : i < batches.length - 1) :
    runGo batches oracle jit dur a? (i :: rest) acc t
      = ⟨(runGo batches oracle jit dur a? rest (acc ++ tes) (r.endTime + 4000)).result,
         (i + 1, acc ++ tes, false) ::
           (runGo batches oracle jit dur a? rest (acc ++ tes)
             (r.endTime + 4000)).checkpoints,
         i :: (runGo batches oracle jit dur a? rest (acc ++ tes)
           (r.endTime + 4000)).calls,
         (i, r.endTime, r.endTime + 4000) ::
           (runGo batches oracle jit dur a? rest (acc ++ tes)
             (r.endTime + 4000)).interSleeps,
         (runGo batches oracle jit dur a? rest (acc ++ tes)
           (r.endTime + 4000)).endTime,
         (runGo batches oracle jit dur a? rest (acc ++ tes)
           (r.endTime + 4000)).failedAtLoopCheck⟩ := by
  rw [runGo]
  simp only [h, Bool.false_eq_true, if_false, hr]
  rw [hres]
  simp [hi]

lemma runGo_cons_ok_last (batches : List Batch)
    (oracle : Nat → Nat → Except String String) (jit dur : Nat → Nat → ℚ)
    (a? : Option ℚ) (i : Nat) (rest : List Nat) (acc : List Entry) (t : ℚ)
    (r : RetryOut) (tes : List Entry) (h : abortedAt a? t = false)
    (hr : translateBatchWithRetry (oracle i) (jit i) (dur i)
      (batches.getD i ⟨0, [], [], 0, 0⟩).entries 5 a? t = r)
    (hres : r.result = .ok tes) (hi : ¬ i < batches.length - 1) :
    runGo batches oracle jit dur a? (i :: rest) acc t
      = ⟨(runGo batches oracle jit dur a? rest (acc ++ tes) r.endTime).result,
         (i + 1, acc ++ tes, false) ::
           (runGo batches oracle jit dur a? rest (acc ++ tes)
             r.endTime).checkpoints,
         i :: (runGo batches oracle jit dur a? rest (acc ++ tes) r.endTime).calls,
         (runGo batches oracle jit dur a? rest (acc ++ tes)
           r.endTime).interSleeps,
         (runGo batches oracle jit dur a? rest (acc ++ tes) r.endTime).endTime,
         (runGo batches oracle jit dur a? rest (acc ++ tes)
           r.endTime).failedAtLoopCheck⟩ := by
  rw [runGo]
  simp only [h, Bool.false_eq_true, if_false, hr]
  rw [hres]
  simp [hi]

lemma getLast?_cons_of_getLast? {α : Type} (a : α) (l : List α) (x : α)
    (h : l.getLast? = some x) : (a :: l).getLast? = some x := by
  cases l with
  | nil => simp at h
  | cons b t => rw [List.getLast?_cons_cons]; exact h

lemma runGo_failure_checkpoint (batches : List Batch)
    (oracle : Nat → Nat → Except String String) (jit dur : Nat → Nat → ℚ)
    (a? : Option ℚ) :
    ∀ (is : List Nat) (acc : List Entry) (t : ℚ),
      (∀ i ∈ is, i < batches.length) →
      ∀ e, (runGo batches oracle jit dur a? is acc t).result = .error e →
        (runGo batches oracle jit dur a? is acc t).failedAtLoopCheck = false →
        ∃ i acc2,
          (runGo batches oracle jit dur a? is acc t).checkpoints.getLast?
            = some (i, acc2, true) ∧
          (runGo batches oracle jit dur a? is acc t).calls.getLast? = some i ∧
          i < batches.length := by
  intro is
  induction is with
  | nil =>
    intro acc t hb e hres hflag
    rw [runGo_nil] at hres
    simp at hres
  | cons i rest ih =>
    intro acc t hb e hres hflag
    cases h : abortedAt a? t with
    | true =>
      rw [runGo_cons_aborted batches oracle jit dur a? i rest acc t h] at hflag
      simp at hflag
    | false =>
      cases hr : (translateBatchWithRetry (oracle i) (jit i) (dur i)
          (batches.getD i ⟨0, [], [], 0, 0⟩).entries 5 a? t).result with
      | ok tes =>
        by_cases hi : i < batches.length - 1
        · rw [runGo_cons_ok_sleep batches oracle jit dur a? i rest acc t _ tes h
            rfl hr hi] at hres hflag ⊢
          obtain ⟨j, acc2, h1, h2, h3⟩ := ih (acc ++ tes) _
            (fun x hx => hb x (List.mem_cons_of_mem i hx)) e hres hflag
          exact ⟨j, acc2, getLast?_cons_of_getLast? _ _ _ h1,
            getLast?_cons_of_getLast? _ _ _ h2, h3⟩
        · rw [runGo_cons_ok_last batches oracle jit dur a? i rest acc t _ tes h
            rfl hr hi] at hres hflag ⊢
          obtain ⟨j, acc2, h1, h2, h3⟩ := ih (acc ++ tes) _
            (fun x hx => hb x (List.mem_cons_of_mem i hx)) e hres hflag
          exact ⟨j, acc2, getLast?_cons_of_getLast? _ _ _ h1,
            getLast?_cons_of_getLast? _ _ _ h2, h3⟩
      | error e2 =>
        rw [runGo_cons_error batches oracle jit dur a? i rest acc t _ e2 h rfl hr]
        exact ⟨i, acc, rfl, rfl, hb i (List.mem_cons_self i rest)⟩

/-- C2 (amended): whenever a run of the orchestrator fails with an error
thrown by the per-batch translation call (terminal error, exhausted
retries, or a cancellation observed inside the retry controller) rather
than by the orchestrator's own loop-top abort check, the last checkpoint
callback invocation before the failure propagates is
`(i, runningResult, failed := true)` for the failing batch index `i`, and
that `i` is strictly less than the number of batches.  (The original
claim's unconditional form fails: a cancellation detected by the loop-top
check throws outside the try/catch and emits no checkpoint at all — see
the counterexample.) -/
theorem translateAllBatches_failure_checkpoint (batches : List Batch)
    (oracle : Nat → Nat → Except String String) (jit dur : Nat → Nat → ℚ)
    (a? : Option ℚ) (startFrom : Nat) (existing : List Entry) :
    ∀ e, (translateAllBatches batches oracle jit dur a? startFrom existing).result
        = .error e →
      (translateAllBatches batches oracle jit dur a? startFrom
        existing).failedAtLoopCheck = false →
      ∃ i acc2,
        (translateAllBatches batches oracle jit dur a? startFrom
          existing).checkpoints.getLast? = some (i, acc2, true) ∧
        (translateAllBatches batches oracle jit dur a? startFrom
          existing).calls.getLast? = some i ∧
        i < batches.length := by
  intro e hres hflag
  exact runGo_failure_checkpoint batches oracle jit dur a? _ existing 0
    (fun x hx => by
      have := List.mem_range'_1.mp hx
      omega) e hres hflag

/-- C2 witness: two batches where the second fails with the invalid-key
error leave a final failed checkpoint naming batch index 1 (of 2). -/
theorem translateAllBatches_failure_checkpoint_witness :
    ∃ i acc2,
      (translateAllBatches [⟨0, [mkE 1], [], 0, 1⟩, ⟨1, [mkE 2], [], 1, 2⟩]
        (fun i _ => if i = 0 then .ok "T" else .error invalidKeyMsg)
        (fun _ _ => 0) (fun _ _ => 0) none 0 []).checkpoints.getLast?
          = some (i, acc2, true) ∧
      (translateAllBatches [⟨0, [mkE 1], [], 0, 1⟩, ⟨1, [mkE 2], [], 1, 2⟩]
        (fun i _ => if i = 0 then .ok "T" else .error invalidKeyMsg)
        (fun _ _ => 0) (fun _ _ => 0) none 0 []).calls.getLast? = some i ∧
      i < [⟨0, [mkE 1], [], 0, 1⟩, (⟨1, [mkE 2], [], 1, 2⟩ : Batch)].length :=
  translateAllBatches_failure_checkpoint
    [⟨0, [mkE 1], [], 0, 1⟩, ⟨1, [mkE 2], [], 1, 2⟩]
    (fun i _ => if i = 0 then .ok "T" else .error invalidKeyMsg)
    (fun _ _ => 0) (fun _ _ => 0) none 0 [] invalidKeyMsg rfl (by decide)

/-- C2 counterexample: with the signal already aborted, the run fails with
the cancellation error while the checkpoint callback is never invoked at
all — refuting both the claimed failed-checkpoint invocation and the
claim that a failed run always leaves a checkpoint. -/
theorem translateAllBatches_cancel_no_checkpoint :
    (translateAllBatches [⟨0, [mkE 1], [], 0, 1⟩] (fun _ _ => .ok "T")
        (fun _ _ => 0) (fun _ _ => 0) (some 0) 0 []).result
      = .error cancelledMsg ∧
    (translateAllBatches [⟨0, [mkE 1], [], 0, 1⟩] (fun _ _ => .ok "T")
        (fun _ _ => 0) (fun _ _ => 0) (some 0) 0 []).checkpoints = [] := by
  constructor
  · simp [translateAllBatches, runGo, abortedAt]
  · simp [translateAllBatches, runGo, abortedAt]

lemma entrySum_succ (bs : List Batch) (i : Nat) (d : Batch) (h : i < bs.length) :
    entrySum bs (i + 1) = entrySum bs i + (bs.getD i d).entries.length := by
  simp only [entrySum, List.take_succ, List.map_append, List.sum_append,
    List.getElem?_eq_getElem h, List.getD_eq_getElem?_getD]
  simp

lemma retryGo_ok_length (op : Nat → Except String String) (jit dur : Nat → ℚ)
    (be : List Entry) (mr : Nat) (a? : Option ℚ) :
    ∀ (rem attempt : Nat) (t : ℚ) (tes : List Entry),
      (retryGo op jit dur be mr a? attempt rem t).result = .ok tes →
      tes.length = be.length := by
  intro rem
  induction rem with
  | zero =>
    intro attempt t tes hres
    cases h : abortedAt a? t with
    | true =>
      rw [retryGo_step_aborted op jit dur be mr a? attempt 0 t h] at hres
      simp at hres
    | false =>
      cases hop : op attempt with
      | ok raw =>
        rw [retryGo_step_ok op jit dur be mr a? attempt 0 t raw h hop] at hres
        simp only [Except.ok.injEq] at hres
        rw [← hres]
        exact parseAPIResponse_length raw be
      | error msg =>
        cases hr : isRetryable msg with
        | true =>
          rw [retryGo_step_exhausted op jit dur be mr a? attempt t msg h hop hr]
            at hres
          simp at hres
        | false =>
          rw [retryGo_step_terminal op jit dur be mr a? attempt 0 t msg h hop hr]
            at hres
          simp at hres
  | succ rem ih =>
    intro attempt t tes hres
    cases h : abortedAt a? t with
    | true =>
      rw [retryGo_step_aborted op jit dur be mr a? attempt (rem + 1) t h] at hres
      simp at hres
    | false =>
      cases hop : op attempt with
      | ok raw =>
        rw [retryGo_step_ok op jit dur be mr a? attempt (rem + 1) t raw h hop]
          at hres
        simp only [Except.ok.injEq] at hres
        rw [← hres]
        exact parseAPIResponse_length raw be
      | error msg =>
        cases hr : isRetryable msg with
        | true =>
          rw [retryGo_step_retry op jit dur be mr a? attempt rem t msg h hop hr]
            at hres
          exact ih (attempt + 1) _ tes hres
        | false =>
          rw [retryGo_step_terminal op jit dur be mr a? attempt (rem + 1) t msg
            h hop hr] at hres
          simp at hres

lemma runGo_checkpoint_invariant (batches : List Batch)
    (oracle : Nat → Nat → Except String String) (jit dur : Nat → Nat → ℚ)
    (a? : Option ℚ) :
    ∀ (n k : Nat) (acc : List Entry) (t : ℚ),
      k + n = batches.length →
      acc.length = entrySum batches k →
      ∀ cp ∈ (runGo batches oracle jit dur a?
          (List.range' k n) acc t).checkpoints,
        cp.2.1.length = entrySum batches cp.1 := by
  intro n
  induction n with
  | zero =>
    intro k acc t hkn hacc cp hcp
    rw [List.range'_zero, runGo_nil] at hcp
    simp at hcp
  | succ n ih =>
    intro k acc t hkn hacc cp hcp
    rw [List.range'_succ k n 1] at hcp
    cases h : abortedAt a? t with
    | true =>
      rw [runGo_cons_aborted batches oracle jit dur a? k _ acc t h] at hcp
      simp at hcp
    | false =>
      cases hr : (translateBatchWithRetry (oracle k) (jit k) (dur k)
          (batches.getD k ⟨0, [], [], 0, 0⟩).entries 5 a? t).result with
      | ok tes =>
        have hlen : tes.length
            = (batches.getD k ⟨0, [], [], 0, 0⟩).entries.length :=
          retryGo_ok_length (oracle k) (jit k) (dur k) _ 5 a? 5 0 t tes hr
        have hacc2 : (acc ++ tes).length = entrySum batches (k + 1) := by
          rw [List.length_append, hacc, hlen,
            entrySum_succ batches k ⟨0, [], [], 0, 0⟩ (by omega)]
        by_cases hi : k < batches.length - 1
        · rw [runGo_cons_ok_sleep batches oracle jit dur a? k _ acc t _ tes h
            rfl hr hi] at hcp
          simp only [List.mem_cons] at hcp
          rcases hcp with hcp | hcp
          · rw [hcp]
            exact hacc2
          · exact ih (k + 1) (acc ++ tes) _ (by omega) hacc2 cp hcp
        · rw [runGo_cons_ok_last batches oracle jit dur a? k _ acc t _ tes h
            rfl hr hi] at hcp
          simp only [List.mem_cons] at hcp
          rcases hcp with hcp | hcp
          · rw [hcp]
            exact hacc2
          · exact ih (k + 1) (acc ++ tes) _ (by omega) hacc2 cp hcp
      | error e2 =>
        rw [runGo_cons_error batches oracle jit dur a? k _ acc t _ e2 h rfl hr]
          at hcp
        simp only [List.mem_cons, List.not_mem_nil, or_false] at hcp
        rw [hcp]
        exact hacc

/-- C8: at every checkpoint the orchestrator emits (success or failure),
the length of the reported running result equals the sum of the entry
counts of the batches before the reported completedBatches — provided the
run was seeded consistently (fresh run: resumeFrom = 0 with no entries;
resume: a checkpoint satisfying the same invariant). -/
theorem translateAllBatches_checkpoint_lengths (batches : List Batch)
    (oracle : Nat → Nat → Except String String) (jit dur : Nat → Nat → ℚ)
    (a? : Option ℚ) (startFrom : Nat) (existing : List Entry)
    (hseed : existing.length = entrySum batches startFrom) :
    ∀ cp ∈ (translateAllBatches batches oracle jit dur a? startFrom
        existing).checkpoints,
      cp.2.1.length = entrySum batches cp.1 := by
  by_cases hsf : startFrom ≤ batches.length
  · exact runGo_checkpoint_invariant batches oracle jit dur a?
      (batches.length - startFrom) startFrom existing 0 (by omega) hseed
  · intro cp hcp
    rw [translateAllBatches, show batches.length - startFrom = 0 by omega,
      List.range'_zero, runGo_nil] at hcp
    simp at hcp

/-- C8 witness: in a two-batch run whose first checkpoint reports one
completed batch, the running result has exactly the first batch's entry
count. -/
theorem translateAllBatches_checkpoint_lengths_witness :
    (parseAPIResponse "T" [mkE 1]).length
      = entrySum [⟨0, [mkE 1], [], 0, 1⟩, ⟨1, [mkE 2], [], 1, 2⟩] 1 :=
  translateAllBatches_checkpoint_lengths
    [⟨0, [mkE 1], [], 0, 1⟩, ⟨1, [mkE 2], [], 1, 2⟩]
    (fun _ _ => .ok "T") (fun _ _ => 0) (fun _ _ => 0) none 0 [] rfl
    (1, parseAPIResponse "T" [mkE 1], false) (by decide)

lemma retryGo_sleep_cancel (op : Nat → Except String String) (jit dur : Nat → ℚ)
    (be : List Entry) (mr : Nat) (a : ℚ) :
    ∀ (rem attempt : Nat) (t st en : ℚ),
      (st, en) ∈ (retryGo op jit dur be mr (some a) attempt rem t).sleeps →
      st < a → a ≤ en →
      (retryGo op jit dur be mr (some a) attempt rem t).result
          = .error cancelledMsg ∧
      (retryGo op jit dur be mr (some a) attempt rem t).endTime = en := by
  intro rem
  induction rem with
  | zero =>
    intro attempt t st en hmem h1 h2
    cases h : abortedAt (some a) t with
    | true =>
      rw [retryGo_step_aborted op jit dur be mr (some a) attempt 0 t h] at hmem
      simp at hmem
    | false =>
      cases hop : op attempt with
      | ok raw =>
        rw [retryGo_step_ok op jit dur be mr (some a) attempt 0 t raw h hop]
          at hmem
        simp at hmem
      | error msg =>
        cases hrb : isRetryable msg with
        | true =>
          rw [retryGo_step_exhausted op jit dur be mr (some a) attempt t msg h
            hop hrb] at hmem
          simp at hmem
        | false =>
          rw [retryGo_step_terminal op jit dur be mr (some a) attempt 0 t msg h
            hop hrb] at hmem
          simp at hmem
  | succ rem ih =>
    intro attempt t st en hmem h1 h2
    cases h : abortedAt (some a) t with
    | true =>
      rw [retryGo_step_aborted op jit dur be mr (some a) attempt (rem + 1) t h]
        at hmem
      simp at hmem
    | false =>
      cases hop : op attempt with
      | ok raw =>
        rw [retryGo_step_ok op jit dur be mr (some a) attempt (rem + 1) t raw h
          hop] at hmem
        simp at hmem
      | error msg =>
        cases hrb : isRetryable msg with
        | false =>
          rw [retryGo_step_terminal op jit dur be mr (some a) attempt (rem + 1)
            t msg h hop hrb] at hmem
          simp at hmem
        | true =>
          rw [retryGo_step_retry op jit dur be mr (some a) attempt rem t msg h
            hop hrb] at hmem ⊢
          simp only [List.mem_cons, Prod.mk.injEq] at hmem
          rcases hmem with ⟨hst, hen⟩ | hmem
          · have habort : abortedAt (some a)
                (t + dur attempt + (15000 * 2 ^ attempt + jit attempt)) = true := by
              simp only [abortedAt, decide_eq_true_eq]
              exact hen ▸ h2
            rw [retryGo_step_aborted op jit dur be mr (some a) (attempt + 1) rem
              _ habort]
            exact ⟨rfl, hen.symm⟩
          · exact ih (attempt + 1) _ st en hmem h1 h2

lemma runGo_interSleep_cancel (batches : List Batch)
    (oracle : Nat → Nat → Except String String) (jit dur : Nat → Nat → ℚ)
    (a : ℚ) :
    ∀ (n k : Nat) (acc : List Entry) (t : ℚ),
      k + n = batches.length →
      ∀ i st en,
        (i, st, en) ∈ (runGo batches oracle jit dur (some a)
          (List.range' k n) acc t).interSleeps →
        st < a → a ≤ en →
        (runGo batches oracle jit dur (some a) (List.range' k n) acc t).result
            = .error cancelledMsg ∧
        (runGo batches oracle jit dur (some a) (List.range' k n) acc t).endTime
            = en ∧
        (runGo batches oracle jit dur (some a)
          (List.range' k n) acc t).failedAtLoopCheck = true ∧
        k ≤ i ∧
        (runGo batches oracle jit dur (some a) (List.range' k n) acc t).calls
            = List.range' k (i + 1 - k) := by
  intro n
  induction n with
  | zero =>
    intro k acc t hkn i st en hmem h1 h2
    rw [List.range'_zero, runGo_nil] at hmem
    simp at hmem
  | succ n ih =>
    intro k acc t hkn i st en hmem h1 h2
    rw [List.range'_succ k n 1] at hmem ⊢
    cases h : abortedAt (some a) t with
    | true =>
      rw [runGo_cons_aborted batches oracle jit dur (some a) k _ acc t h] at hmem
      simp at hmem
    | false =>
      cases hr : (translateBatchWithRetry (oracle k) (jit k) (dur k)
          (batches.getD k ⟨0, [], [], 0, 0⟩).entries 5 (some a) t).result with
      | error e2 =>
        rw [runGo_cons_error batches oracle jit dur (some a) k _ acc t _ e2 h
          rfl hr] at hmem
        simp at hmem
      | ok tes =>
        by_cases hi : k < batches.length - 1
        · rw [runGo_cons_ok_sleep batches oracle jit dur (some a) k _ acc t _
            tes h rfl hr hi] at hmem ⊢
          simp only [List.mem_cons, Prod.mk.injEq] at hmem
          rcases hmem with ⟨hik, hst, hen⟩ | hmem
          · have hn1 : 1 ≤ n := by omega
            obtain ⟨m, rfl⟩ : ∃ m, n = m + 1 := ⟨n - 1, by omega⟩
            rw [List.range'_succ (k + 1) m 1]
            have habort : abortedAt (some a)
                ((translateBatchWithRetry (oracle k) (jit k) (dur k)
                  (batches.getD k ⟨0, [], [], 0, 0⟩).entries 5 (some a)
                  t).endTime + 4000) = true := by
              simp only [abortedAt, decide_eq_true_eq]
              exact hen ▸ h2
            rw [runGo_cons_aborted batches oracle jit dur (some a) (k + 1) _
              (acc ++ tes) _ habort]
            refine ⟨rfl, hen.symm, rfl, by omega, ?_⟩
            rw [show i + 1 - k = 1 by omega, List.range'_one, ← hik]
          · have hrec := ih (k + 1) (acc ++ tes) _ (by omega) i st en hmem h1 h2
            refine ⟨hrec.1, hrec.2.1, hrec.2.2.1, by omega, ?_⟩
            rw [hrec.2.2.2.2, show i + 1 - k = (i - k) + 1 by omega,
              List.range'_succ k (i - k) 1, show i + 1 - (k + 1) = i - k by omega]
        · rw [runGo_cons_ok_last batches oracle jit dur (some a) k _ acc t _
            tes h rfl hr hi] at hmem
          have hn0 : n = 0 := by omega
          rw [hn0, List.range'_zero, runGo_nil] at hmem
          simp at hmem

/-- C6 (amended): the pipeline's sleeps do not observe the cancellation
signal.  A cancellation firing strictly inside an inter-batch delay takes
effect only at the next loop-top check: the run fails with the
cancellation error exactly at the sleep's scheduled end — the sleep runs
to completion — although the next batch's translation call is still never
invoked.  Likewise a cancellation firing strictly inside a retry backoff
sleep makes the retry call fail with the cancellation error exactly at
that sleep's end.  (The claim that every suspension observes the signal
and aborts promptly during the wait is refuted by the counterexample,
where the failure happens only at the sleep's end.) -/
theorem sleeps_run_to_completion_on_cancel :
    (∀ (batches : List Batch) (oracle : Nat → Nat → Except String String)
        (jit dur : Nat → Nat → ℚ) (a : ℚ) (startFrom : Nat)
        (existing : List Entry) (i : Nat) (st en : ℚ),
      (i, st, en) ∈ (translateAllBatches batches oracle jit dur (some a)
        startFrom existing).interSleeps →
      st < a → a ≤ en →
      (translateAllBatches batches oracle jit dur (some a) startFrom
        existing).result = .error cancelledMsg ∧
      (translateAllBatches batches oracle jit dur (some a) startFrom
        existing).endTime = en ∧
      (translateAllBatches batches oracle jit dur (some a) startFrom
        existing).failedAtLoopCheck = true ∧
      (i + 1) ∉ (translateAllBatches batches oracle jit dur (some a) startFrom
        existing).calls) ∧
    (∀ (op : Nat → Except String String) (jit dur : Nat → ℚ) (be : List Entry)
        (mr : Nat) (a : ℚ) (rem attempt : Nat) (t st en : ℚ),
      (st, en) ∈ (retryGo op jit dur be mr (some a) attempt rem t).sleeps →
      st < a → a ≤ en →
      (retryGo op jit dur be mr (some a) attempt rem t).result
          = .error cancelledMsg ∧
      (retryGo op jit dur be mr (some a) attempt rem t).endTime = en) := by
  constructor
  · intro batches oracle jit dur a startFrom existing i st en hmem h1 h2
    by_cases hsf : startFrom ≤ batches.length
    · have hrec := runGo_interSleep_cancel batches oracle jit dur a
        (batches.length - startFrom) startFrom existing 0 (by omega)
        i st en hmem h1 h2
      refine ⟨hrec.1, hrec.2.1, hrec.2.2.1, ?_⟩
      rw [translateAllBatches, hrec.2.2.2.2]
      intro hcon
      have := List.mem_range'_1.mp hcon
      omega
    · rw [translateAllBatches, show batches.length - startFrom = 0 by omega,
        List.range'_zero, runGo_nil] at hmem
      simp at hmem
  · intro op jit dur be mr a rem attempt t st en hmem h1 h2
    exact retryGo_sleep_cancel op jit dur be mr a rem attempt t st en hmem h1 h2

/-- C6 witness: in a two-batch run with the signal firing at time 2,
strictly inside the inter-batch sleep (1, 4001), the run fails with the
cancellation error and batch 1's translation call is never invoked. -/
theorem sleeps_run_to_completion_on_cancel_witness :
    (translateAllBatches [⟨0, [mkE 1], [], 0, 1⟩, ⟨1, [mkE 2], [], 1, 2⟩]
        (fun _ _ => .ok "T") (fun _ _ => 0) (fun _ _ => 1)
        (some 2) 0 []).result = .error cancelledMsg ∧
    (0 + 1) ∉ (translateAllBatches [⟨0, [mkE 1], [], 0, 1⟩, ⟨1, [mkE 2], [], 1, 2⟩]
        (fun _ _ => .ok "T") (fun _ _ => 0) (fun _ _ => 1)
        (some 2) 0 []).calls := by
  have hmem : ((0 : Nat), (1 : ℚ), (4001 : ℚ))
      ∈ (translateAllBatches [⟨0, [mkE 1], [], 0, 1⟩, ⟨1, [mkE 2], [], 1, 2⟩]
        (fun _ _ => .ok "T") (fun _ _ => 0) (fun _ _ => 1)
        (some 2) 0 []).interSleeps := by
    have hs : (translateAllBatches [⟨0, [mkE 1], [], 0, 1⟩, ⟨1, [mkE 2], [], 1, 2⟩]
        (fun _ _ => .ok "T") (fun _ _ => 0) (fun _ _ => 1)
        (some 2) 0 []).interSleeps = [(0, 1, 4001)] := by
      norm_num [translateAllBatches, runGo, abortedAt, translateBatchWithRetry,
        retryGo]
    rw [hs]
    simp
  have h := sleeps_run_to_completion_on_cancel.1
    [⟨0, [mkE 1], [], 0, 1⟩, ⟨1, [mkE 2], [], 1, 2⟩]
    (fun _ _ => .ok "T") (fun _ _ => 0) (fun _ _ => 1) 2 0 [] 0 1 4001
    hmem (by norm_num) (by norm_num)
  exact ⟨h.1, h.2.2.2⟩

/-- C6 counterexample: same run — the cancellation fires at time 2,
strictly inside the inter-batch sleep (1, 4001), yet the run only fails
at time 4001, the sleep's scheduled end: the suspension ran to completion
instead of aborting promptly when cancellation fired. -/
theorem inter_batch_sleep_not_cancellable :
    (translateAllBatches [⟨0, [mkE 1], [], 0, 1⟩, ⟨1, [mkE 2], [], 1, 2⟩]
        (fun _ _ => .ok "T") (fun _ _ => 0) (fun _ _ => 1)
        (some 2) 0 []).interSleeps = [(0, 1, 4001)] ∧
    (1 : ℚ) < 2 ∧ (2 : ℚ) ≤ 4001 ∧
    (translateAllBatches [⟨0, [mkE 1], [], 0, 1⟩, ⟨1, [mkE 2], [], 1, 2⟩]
        (fun _ _ => .ok "T") (fun _ _ => 0) (fun _ _ => 1)
        (some 2) 0 []).result = .error cancelledMsg ∧
    (translateAllBatches [⟨0, [mkE 1], [], 0, 1⟩, ⟨1, [mkE 2], [], 1, 2⟩]
        (fun _ _ => .ok "T") (fun _ _ => 0) (fun _ _ => 1)
        (some 2) 0 []).endTime = 4001 ∧
    ¬ (translateAllBatches [⟨0, [mkE 1], [], 0, 1⟩, ⟨1, [mkE 2], [], 1, 2⟩]
        (fun _ _ => .ok "T") (fun _ _ => 0) (fun _ _ => 1)
        (some 2) 0 []).endTime < 4001 := by
  refine ⟨?_, by norm_num, by norm_num, ?_, ?_, ?_⟩ <;>
    norm_num [translateAllBatches, runGo, abortedAt, translateBatchWithRetry,
      retryGo]

/-- C10: validateApiKey rejects an empty or whitespace-only key without
issuing a network request, and never throws: a fetch exception or a
non-ok response both yield false, and true is returned only when the test
request succeeded with an ok response. -/
theorem validateApiKey_spec :
    (∀ (key : String) (f : Option Bool), jsTrim key = "" →
      validateApiKey key f = (false, false)) ∧
    (∀ key, (validateApiKey key none).1 = false) ∧
    (∀ key, (validateApiKey key (some false)).1 = false) ∧
    (∀ key f, (validateApiKey key f).1 = true → f = some true) := by
  refine ⟨?_, ?_, ?_, ?_⟩
  · intro key f h
    rw [validateApiKey.eq_def, if_pos (Or.inr h)]
  · intro key
    rw [validateApiKey.eq_def]
    by_cases h : key = "" ∨ jsTrim key = ""
    · rw [if_pos h]
    · rw [if_neg h]
  · intro key
    rw [validateApiKey.eq_def]
    by_cases h : key = "" ∨ jsTrim key = ""
    · rw [if_pos h]
    · rw [if_neg h]
  · intro key f h
    rw [validateApiKey.eq_def] at h
    by_cases hk : key = "" ∨ jsTrim key = ""
    · rw [if_pos hk] at h
      simp at h
    · rw [if_neg hk] at h
      cases f with
      | none => simp at h
      | some ok =>
        simp only at h
        rw [h]

/-- C10 witness: a whitespace-only key is rejected with no request even
when the stubbed fetch would have succeeded, and a fetch exception yields
false. -/
theorem validateApiKey_spec_witness :
    validateApiKey "   " (some true) = (false, false) ∧
    (validateApiKey "sk-test" none).1 = false :=
  ⟨validateApiKey_spec.1 "   " (some true) (by decide),
   validateApiKey_spec.2.1 "sk-test"⟩
